import Mathlib

/-!
Shallow embedding of the wercker external-runner fleet controller
(src/external/controller.go) and the Remote Docker Daemon lease client
(src/rdd/rdd.go), with theorems settling the specification claims.

Go strings are modelled as `List Char` where structural reasoning about their
contents is needed, and as `String` where they are opaque identifiers.
External collaborators (the Docker runtime client, the RDD gRPC service, the
JSON decoder) are modelled as oracles passed to each function; the functions
themselves follow the Go control flow statement by statement.
-/

namespace Wercker

/-- The newline character, as trimmed by strings.TrimSuffix(str, "\n"). -/
def nlChar : Char := Char.ofNat 10

/-- Left curly-brace character, used by the strings.HasPrefix check. -/
def lbrace : Char := Char.ofNat 123

/-- Right curly-brace character, used by the strings.HasSuffix check. -/
def rbrace : Char := Char.ofNat 125

/-- Decimal digit character, as produced by Go's fmt "%d" verb. -/
def digitChar (d : Nat) : Char := Char.ofNat (48 + d)

/-- Fuel-based decimal rendering of a natural number, most significant digit
first; models the digit sequence emitted by fmt.Sprintf("%d", m) for a
non-negative value. The fuel argument only forces termination; `natDigits`
supplies enough fuel for the value being rendered. -/
def natDigitsAux : Nat → Nat → List Char
  | 0, _ => []
  | fuel + 1, m =>
    if m < 10 then [digitChar m]
    else natDigitsAux fuel (m / 10) ++ [digitChar (m % 10)]

/-- Decimal rendering of a natural number (fmt.Sprintf("%d", m), m ≥ 0). -/
def natDigits (m : Nat) : List Char := natDigitsAux (m + 1) m

/-- Model of fmt.Sprintf("%d", n) for an int64 value n. -/
def goFormatInt (n : Int) : List Char :=
  if n < 0 then '-' :: natDigits n.natAbs else natDigits n.natAbs

/-- Decimal value of a digit string, as accumulated by Go's leadingInt. -/
def digitsToNat (l : List Char) : Nat :=
  l.foldl (fun a c => a * 10 + (c.toNat - 48)) 0

/-- Largest int64 value; Go's time.ParseDuration accumulates nanoseconds in an
int64 and rejects anything above this bound. -/
def maxInt64 : Nat := 9223372036854775807

/-- Model of Go time.ParseDuration restricted to the shape of the inputs
Provision builds with fmt.Sprintf ("%ds" in rdd.go, "%dm" in the legacy Get):
an optional sign, a run of decimal digits and a trailing unit. It mirrors
Go's overflow behaviour: leadingInt fails once the digit value exceeds
2^63-1, and the unit multiplication is rejected when the value exceeds
(2^63-1)/unit. The result is the duration in nanoseconds. -/
def parseDurationGo (s : List Char) : Option Int :=
  let neg := s.head? == some '-'
  let s1 := if s.head? == some '-' || s.head? == some '+' then s.tail else s
  if s1 = [] then none
  else
    let ds := s1.takeWhile (fun c => c.isDigit)
    let rest := s1.dropWhile (fun c => c.isDigit)
    if ds = [] then none
    else
      let v := digitsToNat ds
      if v > maxInt64 then none
      else
        match (if rest = ['s'] then some 1000000000
               else if rest = ['m'] then some 60000000000
               else none : Option Nat) with
        | none => none
        | some u =>
          if v > maxInt64 / u then none
          else
            let d : Int := ((v * u : Nat) : Int)
            some (if neg then -d else d)

/-- The poll-deadline computation in Provision (rdd.go lines 99 to 103):
time.ParseDuration(fmt.Sprintf("%ds", t)); when parsing fails the documented
fallback of 300 seconds is used. Result in nanoseconds. -/
def effectiveTimeoutNs (t : Int) : Int :=
  match parseDurationGo (goFormatInt t ++ ['s']) with
  | some d => d
  | none => 300 * 1000000000

/-! ### Lemmas about the decimal model -/

theorem digitsToNat_append_singleton (l : List Char) (c : Char) :
    digitsToNat (l ++ [c]) = digitsToNat l * 10 + (c.toNat - 48) := by
  simp [digitsToNat, List.foldl_append]

theorem digitChar_toNat {d : Nat} (h : d < 10) : (digitChar d).toNat = 48 + d := by
  interval_cases d <;> decide

theorem digitChar_isDigit {d : Nat} (h : d < 10) : (digitChar d).isDigit = true := by
  interval_cases d <;> decide

theorem natDigitsAux_eval : ∀ fuel m, m < fuel →
    digitsToNat (natDigitsAux fuel m) = m := by
  intro fuel
  induction fuel with
  | zero => intro m h; omega
  | succ f ih =>
    intro m h
    by_cases h10 : m < 10
    · simp [natDigitsAux, h10, digitsToNat, digitChar_toNat h10]
    · have hm : 0 < m := by omega
      have hlt : m / 10 < m := Nat.div_lt_self hm (by omega)
      have hf : m / 10 < f := by omega
      have hmod : m % 10 < 10 := Nat.mod_lt _ (by omega)
      simp only [natDigitsAux, h10, if_false]
      rw [digitsToNat_append_singleton, ih _ hf, digitChar_toNat hmod]
      omega

theorem natDigits_eval (m : Nat) : digitsToNat (natDigits m) = m :=
  natDigitsAux_eval (m + 1) m (Nat.lt_succ_self m)

theorem natDigitsAux_all_digits : ∀ fuel m c, c ∈ natDigitsAux fuel m →
    c.isDigit = true := by
  intro fuel
  induction fuel with
  | zero => intro m c h; simp [natDigitsAux] at h
  | succ f ih =>
    intro m c h
    by_cases h10 : m < 10
    · simp [natDigitsAux, h10] at h
      subst h; exact digitChar_isDigit h10
    · simp only [natDigitsAux, h10, if_false, List.mem_append, List.mem_singleton] at h
      rcases h with h | h
      · exact ih _ _ h
      · subst h; exact digitChar_isDigit (Nat.mod_lt _ (by omega))

theorem natDigits_all_digits (m : Nat) (c : Char) (h : c ∈ natDigits m) :
    c.isDigit = true :=
  natDigitsAux_all_digits (m + 1) m c h

theorem natDigitsAux_ne_nil : ∀ fuel m, m < fuel → natDigitsAux fuel m ≠ [] := by
  intro fuel
  induction fuel with
  | zero => intro m h; omega
  | succ f _ =>
    intro m _
    by_cases h10 : m < 10 <;> simp [natDigitsAux, h10]

theorem natDigits_ne_nil (m : Nat) : natDigits m ≠ [] :=
  natDigitsAux_ne_nil (m + 1) m (Nat.lt_succ_self m)

theorem natDigits_injective : Function.Injective natDigits := by
  intro a b h
  have := natDigits_eval a
  rw [h, natDigits_eval] at this
  omega

theorem head_natDigits_not_sign (m : Nat) :
    ((natDigits m ++ ['s']).head? == some '-') = false ∧
    ((natDigits m ++ ['s']).head? == some '+') = false := by
  cases hd : natDigits m with
  | nil => exact absurd hd (natDigits_ne_nil m)
  | cons c cs =>
    have hc : c.isDigit = true := natDigits_all_digits m c (by rw [hd]; exact List.mem_cons_self c cs)
    have h1 : c ≠ '-' := by
      intro h; rw [h] at hc; exact absurd hc (by decide)
    have h2 : c ≠ '+' := by
      intro h; rw [h] at hc; exact absurd hc (by decide)
    constructor <;> simp [beq_eq_false_iff_ne, h1, h2]

theorem takeWhile_digits_s (m : Nat) :
    (natDigits m ++ ['s']).takeWhile (fun c => c.isDigit) = natDigits m ∧
    (natDigits m ++ ['s']).dropWhile (fun c => c.isDigit) = ['s'] := by
  have hall : ∀ c ∈ natDigits m, (fun c : Char => c.isDigit) c = true := by
    intro c hc; exact natDigits_all_digits m c hc
  constructor
  · rw [List.takeWhile_append_of_pos hall]
    simp [List.takeWhile]
  · rw [List.dropWhile_append_of_pos hall]
    simp [List.dropWhile]

/-- Evaluation of parseDurationGo on the non-negative inputs that Provision
builds: the digit run of m followed by the seconds unit. -/
theorem parseDurationGo_nat (m : Nat) (hm : m ≤ 9223372036) :
    parseDurationGo (natDigits m ++ ['s']) = some ((m : Int) * 1000000000) := by
  have hsign := head_natDigits_not_sign m
  have htw := takeWhile_digits_s m
  have hnn : natDigits m ++ ['s'] ≠ [] := by
    cases hd : natDigits m with
    | nil => exact absurd hd (natDigits_ne_nil m)
    | cons c cs => simp
  have e5 : (m > maxInt64) = False := eq_false (by unfold maxInt64; omega)
  have e6 : (m > maxInt64 / 1000000000) = False := eq_false (by
    have h : maxInt64 / 1000000000 = 9223372036 := by decide
    omega)
  unfold parseDurationGo
  rw [hsign.1, hsign.2]
  simp [hnn, htw.1, htw.2, natDigits_ne_nil m, natDigits_eval, e5, e6, Int.natCast_mul]

theorem parseDurationGo_neg (m : Nat) (hm : m ≤ 9223372036) :
    parseDurationGo ('-' :: natDigits m ++ ['s']) = some (-((m : Int) * 1000000000)) := by
  have htw := takeWhile_digits_s m
  have hnn : natDigits m ++ ['s'] ≠ [] := by
    cases hd : natDigits m with
    | nil => exact absurd hd (natDigits_ne_nil m)
    | cons c cs => simp
  have e5 : (m > maxInt64) = False := eq_false (by unfold maxInt64; omega)
  have e6 : (m > maxInt64 / 1000000000) = False := eq_false (by
    have h : maxInt64 / 1000000000 = 9223372036 := by decide
    omega)
  unfold parseDurationGo
  simp [hnn, htw.1, htw.2, natDigits_ne_nil m, natDigits_eval, e5, e6, Int.natCast_mul]

/-- Overflow case of the parse: when the seconds value is above 9223372036 the
nanosecond conversion would exceed int64 and time.ParseDuration reports an
error, so Provision falls back to the 300-second default. -/
theorem parseDurationGo_nat_overflow (m : Nat) (hm : 9223372036 < m) :
    parseDurationGo (natDigits m ++ ['s']) = none := by
  have hsign := head_natDigits_not_sign m
  have htw := takeWhile_digits_s m
  have hnn : natDigits m ++ ['s'] ≠ [] := by
    cases hd : natDigits m with
    | nil => exact absurd hd (natDigits_ne_nil m)
    | cons c cs => simp
  have e6 : (m > maxInt64 / 1000000000) = True := eq_true (by
    have h : maxInt64 / 1000000000 = 9223372036 := by decide
    omega)
  unfold parseDurationGo
  rw [hsign.1, hsign.2]
  by_cases hbig : m > maxInt64
  · have e5 : (m > maxInt64) = True := eq_true hbig
    simp [hnn, htw.1, htw.2, natDigits_ne_nil m, natDigits_eval, e5]
  · have e5 : (m > maxInt64) = False := eq_false hbig
    simp [hnn, htw.1, htw.2, natDigits_ne_nil m, natDigits_eval, e5, e6]

/-- C10: for every int64 timeout value whose magnitude is at most 9223372036
seconds (the largest number of whole seconds an int64 nanosecond count can
hold), fmt.Sprintf("%ds", n) reparsed with time.ParseDuration succeeds and the
effective poll deadline is exactly the configured number of seconds. (The
claim's stronger statement, that the parse succeeds for every int64 value and
the 300-second fallback is dead code, is refuted by the counterexample.) -/
theorem C10_effective_timeout_within_int64 (n : Int) (h : n.natAbs ≤ 9223372036) :
    effectiveTimeoutNs n = n * 1000000000 := by
  unfold effectiveTimeoutNs goFormatInt
  by_cases hn : n < 0
  · rw [if_pos hn]
    rw [show ('-' :: natDigits n.natAbs) ++ ['s'] = '-' :: natDigits n.natAbs ++ ['s'] by simp]
    rw [parseDurationGo_neg n.natAbs h]
    have hcast : (n.natAbs : Int) = -n := by omega
    rw [hcast]; ring_nf
  · rw [if_neg hn]
    rw [parseDurationGo_nat n.natAbs h]
    have hcast : (n.natAbs : Int) = n := by omega
    rw [hcast]

/-- C10 witness: at the concrete timeout 7 the parse succeeds and the deadline
is exactly 7 seconds. -/
theorem C10_effective_timeout_witness :
    (7 : Int).natAbs ≤ 9223372036 ∧ effectiveTimeoutNs 7 = 7 * 1000000000 :=
  ⟨by decide, C10_effective_timeout_within_int64 7 (by decide)⟩

/-- C10 counterexample: at the concrete timeout 9223372037 the parse fails
(9223372037 seconds overflows int64 nanoseconds), the documented 300-second
fallback is reached, and the effective deadline is not the configured value —
so the fallback is not dead code and the claim as stated is false. -/
theorem C10_effective_timeout_counterexample :
    parseDurationGo (goFormatInt 9223372037 ++ ['s']) = none ∧
    effectiveTimeoutNs 9223372037 = 300 * 1000000000 ∧
    effectiveTimeoutNs 9223372037 ≠ 9223372037 * 1000000000 := by
  have hfmt : goFormatInt 9223372037 = natDigits 9223372037 := by
    unfold goFormatInt; rw [if_neg (by omega)]
    simp
  have hparse : parseDurationGo (natDigits 9223372037 ++ ['s']) = none :=
    parseDurationGo_nat_overflow 9223372037 (by omega)
  refine ⟨by rw [hfmt]; exact hparse, ?_, ?_⟩
  · unfold effectiveTimeoutNs
    rw [hfmt, hparse]
  · unfold effectiveTimeoutNs
    rw [hfmt, hparse]
    decide

/-! ### Fleet controller: launching runners (controller.go, startTheRunners /
createTheRunnerCommand / startTheContainer) -/

/-- Runner container name, fmt.Sprintf("%s_%d", cp.Basename, ct)
(controller.go line 214). -/
def mkRunnerName (base : List Char) (ct : Nat) : List Char :=
  base ++ '_' :: natDigits ct

/-- Outcome of startTheRunners. Logger.Fatal is process-ending (logrus
semantics, and the source relies on it: every Fatal is followed by a return or
nothing). fatalToken models the missing-bearer-token Fatal (controller.go line
206); fatalLaunch models the Fatal raised inside startTheContainer when the
docker command cannot be started (line 326) or when the post-start
InspectContainer fails (line 339), and carries the names attempted before the
process died; completed carries the names of the attempted (and started)
containers. -/
inductive StartOutcome where
  | fatalToken : StartOutcome
  | fatalLaunch (attempted : List (List Char)) : StartOutcome
  | completed (attempted : List (List Char)) : StartOutcome
deriving DecidableEq

/-- The launch loop of startTheRunners (controller.go lines 212 to 221).
createTheRunnerCommand (lines 224 to 262) always returns a nil error, so every
iteration calls startTheContainer and increments ct. runOk models whether
runDocker (spawning the docker CLI, lines 324 to 328) succeeds for the given
container name, and inspOk whether the post-start InspectContainer (lines 337
to 340) succeeds; either failure is a Logger.Fatal, ending the process. -/
def startLoop (runOk inspOk : List Char → Bool) (base : List Char) :
    Nat → Nat → StartOutcome
  | 0, _ => StartOutcome.completed []
  | n + 1, ct =>
    let name := mkRunnerName base ct
    if runOk name = false then StartOutcome.fatalLaunch [name]
    else if inspOk name = false then StartOutcome.fatalLaunch [name]
    else
      match startLoop runOk inspOk base n (ct + 1) with
      | StartOutcome.fatalToken => StartOutcome.fatalToken
      | StartOutcome.fatalLaunch att => StartOutcome.fatalLaunch (name :: att)
      | StartOutcome.completed att => StartOutcome.completed (name :: att)

/-- startTheRunners (controller.go lines 200 to 221): if no bearer token was
supplied and the WERCKER_RUNNER_TOKEN environment variable is also empty, the
controller fails fatally before any launch; otherwise the launch loop runs
with ct starting at 1. -/
def startTheRunners (bearerToken envToken : List Char)
    (runOk inspOk : List Char → Bool) (base : List Char) (count : Nat) :
    StartOutcome :=
  if bearerToken = [] ∧ envToken = [] then StartOutcome.fatalToken
  else startLoop runOk inspOk base count 1

theorem mkRunnerName_injective_right (base : List Char) {i j : Nat}
    (h : mkRunnerName base i = mkRunnerName base j) : i = j := by
  unfold mkRunnerName at h
  have h2 := List.append_cancel_left h
  have h3 : natDigits i = natDigits j := by
    simpa using h2
  exact natDigits_injective h3

theorem startLoop_all_ok (runOk inspOk : List Char → Bool) (base : List Char)
    (hrun : ∀ nm, runOk nm = true) (hinsp : ∀ nm, inspOk nm = true) :
    ∀ n ct, startLoop runOk inspOk base n ct =
      StartOutcome.completed ((List.range' ct n).map (mkRunnerName base)) := by
  intro n
  induction n with
  | zero => intro ct; simp [startLoop, List.range']
  | succ k ih =>
    intro ct
    simp only [startLoop, hrun, hinsp, Bool.true_eq_false, if_false, ih (ct + 1)]
    simp [List.range'_succ]

/-- C3, amended: when every individual launch succeeds, Start attempts exactly
desiredCount container launches, named sequentially base_1 .. base_n with no
gaps and no duplicates. (The claim's implicit robustness reading — that a
launch failure cannot reduce the number of attempts — fails, see the
counterexample: a launch failure is a process-ending Fatal.) -/
theorem C3_sequential_names (bearer env base : List Char) (n : Nat)
    (runOk inspOk : List Char → Bool) (htok : bearer ≠ [])
    (hrun : ∀ nm, runOk nm = true) (hinsp : ∀ nm, inspOk nm = true) :
    startTheRunners bearer env runOk inspOk base n =
      StartOutcome.completed ((List.range' 1 n).map (mkRunnerName base)) ∧
    ((List.range' 1 n).map (mkRunnerName base)).length = n ∧
    ((List.range' 1 n).map (mkRunnerName base)).Nodup := by
  refine ⟨?_, by simp, ?_⟩
  · unfold startTheRunners
    rw [if_neg (by intro hc; exact htok hc.1)]
    exact startLoop_all_ok runOk inspOk base hrun hinsp n 1
  · exact (List.nodup_range' 1 n).map
      (fun a b hab => mkRunnerName_injective_right base hab)

/-- C3 witness: two successful launches from base host1 yield exactly the
names host1_1 and host1_2. -/
theorem C3_sequential_names_witness :
    startTheRunners "tok".data [] (fun _ => true) (fun _ => true) "host1".data 2 =
      StartOutcome.completed ["host1_1".data, "host1_2".data] := by
  have h := (C3_sequential_names "tok".data [] "host1".data 2
    (fun _ => true) (fun _ => true) (by decide) (fun _ => rfl) (fun _ => rfl)).1
  rw [h]
  decide

/-- C3 counterexample: with desiredCount 3 and a docker-spawn failure on the
very first launch, Start attempts only one launch (the process dies fatally),
not three — refuting the unconditional "attempts exactly desiredCount
launches" reading backed by the spec sentence "a failure on instance k does
not prevent attempting instance k+1". -/
theorem C3_sequential_names_counterexample :
    startTheRunners "tok".data [] (fun _ => false) (fun _ => true) "w".data 3 =
      StartOutcome.fatalLaunch ["w_1".data] := by
  decide

/-- C1, amended: the controller fails fatally not only for the pre-flight
errors (the missing-token check modelled here, plus the missing-image and
selection-filter checks in RunDockerController) but also for any single
container-launch failure: if the first launch failure happens at instance k+1
(docker spawn error, or inspect error after start), the process terminates
fatally right there and instances k+2 .. n are never attempted; nothing is
logged-and-skipped. -/
theorem C1_launch_failure_is_fatal (bearer env base : List Char) (n k : Nat)
    (runOk inspOk : List Char → Bool) (htok : bearer ≠ []) (hk : k < n)
    (hpass : ∀ i ∈ List.range' 1 k,
      runOk (mkRunnerName base i) = true ∧ inspOk (mkRunnerName base i) = true)
    (hfail : runOk (mkRunnerName base (k + 1)) = false ∨
      (runOk (mkRunnerName base (k + 1)) = true ∧
       inspOk (mkRunnerName base (k + 1)) = false)) :
    startTheRunners bearer env runOk inspOk base n =
      StartOutcome.fatalLaunch
        ((List.range' 1 k).map (mkRunnerName base) ++ [mkRunnerName base (k + 1)]) := by
  unfold startTheRunners
  rw [if_neg (by intro hc; exact htok hc.1)]
  suffices hgen : ∀ k n ct, k < n →
      (∀ i ∈ List.range' ct k,
        runOk (mkRunnerName base i) = true ∧ inspOk (mkRunnerName base i) = true) →
      (runOk (mkRunnerName base (ct + k)) = false ∨
        (runOk (mkRunnerName base (ct + k)) = true ∧
         inspOk (mkRunnerName base (ct + k)) = false)) →
      startLoop runOk inspOk base n ct =
        StartOutcome.fatalLaunch
          ((List.range' ct k).map (mkRunnerName base) ++ [mkRunnerName base (ct + k)]) by
    have h := hgen k n 1 hk hpass (by simpa [Nat.add_comm] using hfail)
    simpa [Nat.add_comm] using h
  intro k
  induction k with
  | zero =>
    intro n ct hn _ hfail0
    obtain ⟨n', rfl⟩ : ∃ n', n = n' + 1 := ⟨n - 1, by omega⟩
    simp only [Nat.add_zero] at hfail0
    rcases hfail0 with hf | ⟨hr, hf⟩
    · simp [startLoop, hf, List.range']
    · simp [startLoop, hr, hf, List.range']
  | succ k ih =>
    intro n ct hn hpass' hfail'
    obtain ⟨n', rfl⟩ : ∃ n', n = n' + 1 := ⟨n - 1, by omega⟩
    have hct : runOk (mkRunnerName base ct) = true ∧
        inspOk (mkRunnerName base ct) = true := by
      apply hpass'
      rw [List.range'_succ]
      exact List.mem_cons_self _ _
    have hrest : ∀ i ∈ List.range' (ct + 1) k,
        runOk (mkRunnerName base i) = true ∧ inspOk (mkRunnerName base i) = true := by
      intro i hi
      apply hpass'
      rw [List.range'_succ]
      exact List.mem_cons_of_mem _ hi
    have hfail'' : runOk (mkRunnerName base (ct + 1 + k)) = false ∨
        (runOk (mkRunnerName base (ct + 1 + k)) = true ∧
         inspOk (mkRunnerName base (ct + 1 + k)) = false) := by
      have harith : ct + 1 + k = ct + (k + 1) := by omega
      rw [harith]; exact hfail'
    have hrec := ih n' (ct + 1) (by omega) hrest hfail''
    simp only [startLoop, hct.1, hct.2, Bool.true_eq_false, if_false, hrec]
    have harith : ct + 1 + k = ct + (k + 1) := by omega
    simp [List.range'_succ, harith]

/-- C1 witness: base w2, three instances, instances 1 passes and instance 2
fails to spawn — the process dies fatally after attempting w2_1 and w2_2. -/
theorem C1_launch_failure_is_fatal_witness :
    startTheRunners "tok".data [] (fun nm => nm ≠ "w2_2".data) (fun _ => true)
      "w2".data 3 =
      StartOutcome.fatalLaunch ["w2_1".data, "w2_2".data] := by
  have h := C1_launch_failure_is_fatal "tok".data [] "w2".data 3 1
    (fun nm => decide (nm ≠ "w2_2".data)) (fun _ => true) (by decide) (by omega)
    (by decide) (by left; decide)
  simpa using h

/-- C1 counterexample: with a valid token and image, a single failed launch
(docker spawn failure for host1_1) makes the controller terminate fatally and
skip nothing: the second instance is never attempted. This refutes the claim
that only pre-flight errors are fatal and that a launch failure is logged,
skipped and does not abort the remaining launches. -/
theorem C1_launch_failure_counterexample :
    startTheRunners "tok".data [] (fun _ => false) (fun _ => true) "host1".data 2 =
      StartOutcome.fatalLaunch ["host1_1".data] := by
  decide

/-! ### Fleet controller: waiting for runners (controller.go,
waitForExternalRunners) -/

/-- In-memory record of one started runner container (struct runnerContainer,
controller.go lines 35 to 39). -/
structure RunnerContainer where
  containerName : String
  containerID : String
  containerStatus : String
deriving DecidableEq

/-- A container is reaped by the monitoring scan when its inspection errors
(treated as gone) or reports status exited. insp models InspectContainer:
none is an error, some s is the observed State.Status. -/
def reaped (insp : String → Option String) (c : RunnerContainer) : Prop :=
  insp c.containerID = none ∨ insp c.containerID = some "exited"

instance (insp : String → Option String) (c : RunnerContainer) :
    Decidable (reaped insp c) := by
  unfold reaped; infer_instance

/-- One pass of the inner monitoring loop of waitForExternalRunners
(controller.go lines 444 to 464): scan the containers in order; the first one
whose inspection errors or reports exited is removed from the list (and, in
the exited case, from Docker) and the scan breaks; if no container is
reapable the list is unchanged. -/
def waitTick (insp : String → Option String) :
    List RunnerContainer → List RunnerContainer
  | [] => []
  | c :: rest =>
    match insp c.containerID with
    | none => rest
    | some st => if st = "exited" then rest else c :: waitTick insp rest

/-- k monitoring ticks starting at tick index t (each real tick is separated
by the 5-second sleep at controller.go line 442, modelled only by the tick
index). -/
def applyTicks (insp : Nat → String → Option String) :
    Nat → Nat → List RunnerContainer → List RunnerContainer
  | _, 0, cs => cs
  | t, k + 1, cs => applyTicks insp (t + 1) k (waitTick (insp t) cs)

/-- The outer wait loop (controller.go lines 439 to 465): tick while the
container list is non-empty. fuel bounds how many ticks are modelled; the
result is true exactly when the loop has returned (the list became empty)
within fuel ticks. -/
def waitLoop (insp : Nat → String → Option String) :
    Nat → Nat → List RunnerContainer → Bool
  | _, _, [] => true
  | 0, _, _ :: _ => false
  | fuel + 1, t, c :: cs => waitLoop insp fuel (t + 1) (waitTick (insp t) (c :: cs))

theorem waitTick_head_reaped (insp : String → Option String)
    (c : RunnerContainer) (cs : List RunnerContainer) (h : reaped insp c) :
    waitTick insp (c :: cs) = cs := by
  rcases h with h | h <;> simp [waitTick, h]

theorem waitTick_none_reaped (insp : String → Option String) :
    ∀ cs : List RunnerContainer, (∀ c ∈ cs, ¬ reaped insp c) →
      waitTick insp cs = cs := by
  intro cs
  induction cs with
  | nil => intro _; rfl
  | cons c rest ih =>
    intro h
    have hc := h c (List.mem_cons_self _ _)
    unfold reaped at hc
    push_neg at hc
    cases hinsp : insp c.containerID with
    | none => exact absurd hinsp hc.1
    | some st =>
      have hne : st ≠ "exited" := by
        intro he; exact hc.2 (by rw [hinsp, he])
      simp only [waitTick, hinsp, if_neg hne]
      rw [ih (fun d hd => h d (List.mem_cons_of_mem _ hd))]

theorem waitTick_length (insp : String → Option String) :
    ∀ cs : List RunnerContainer, (∃ c ∈ cs, reaped insp c) →
      (waitTick insp cs).length + 1 = cs.length := by
  intro cs
  induction cs with
  | nil => rintro ⟨c, hc, _⟩; exact absurd hc (List.not_mem_nil c)
  | cons c rest ih =>
    rintro ⟨d, hd, hrd⟩
    by_cases hc : reaped insp c
    · rw [waitTick_head_reaped insp c rest hc]; simp
    · unfold reaped at hc
      push_neg at hc
      cases hinsp : insp c.containerID with
      | none => exact absurd hinsp hc.1
      | some st =>
        have hne : st ≠ "exited" := by
          intro he; exact hc.2 (by rw [hinsp, he])
        simp only [waitTick, hinsp, if_neg hne, List.length_cons]
        have hd' : d ∈ rest := by
          rcases List.mem_cons.mp hd with rfl | h
          · exact absurd hrd (by unfold reaped; push_neg; exact hc)
          · exact h
        rw [ih ⟨d, hd', hrd⟩]

theorem applyTicks_all_dead (insp : String → Option String) :
    ∀ (cs : List RunnerContainer) (t : Nat), (∀ c ∈ cs, reaped insp c) →
      applyTicks (fun _ => insp) t cs.length cs = [] := by
  intro cs
  induction cs with
  | nil => intro t _; rfl
  | cons c rest ih =>
    intro t h
    simp only [List.length_cons, applyTicks]
    rw [waitTick_head_reaped insp c rest (h c (List.mem_cons_self _ _))]
    exact ih (t + 1) (fun d hd => h d (List.mem_cons_of_mem _ hd))

theorem applyTicks_succ_outer (insp : Nat → String → Option String)
    (t k : Nat) (cs : List RunnerContainer) :
    applyTicks insp t (k + 1) cs = applyTicks insp (t + 1) k (waitTick (insp t) cs) :=
  rfl

theorem applyTicks_nil (insp : Nat → String → Option String) :
    ∀ k t, applyTicks insp t k [] = [] := by
  intro k
  induction k with
  | zero => intro t; rfl
  | succ k ih => intro t; rw [applyTicks_succ_outer]; exact ih (t + 1)

theorem waitLoop_iff_empties (insp : Nat → String → Option String) :
    ∀ (fuel t : Nat) (cs : List RunnerContainer),
      waitLoop insp fuel t cs = true ↔ ∃ k ≤ fuel, applyTicks insp t k cs = [] := by
  intro fuel
  induction fuel with
  | zero =>
    intro t cs
    cases cs with
    | nil =>
      simp only [waitLoop, true_iff]
      exact ⟨0, Nat.le_refl 0, rfl⟩
    | cons c rest =>
      simp only [waitLoop, Bool.false_eq_true, false_iff]
      rintro ⟨k, hk, hemp⟩
      interval_cases k
      exact absurd hemp (by simp [applyTicks])
  | succ fuel ih =>
    intro t cs
    cases cs with
    | nil =>
      simp only [waitLoop, true_iff]
      exact ⟨0, Nat.zero_le _, rfl⟩
    | cons c rest =>
      simp only [waitLoop]
      rw [ih (t + 1) (waitTick (insp t) (c :: rest))]
      constructor
      · rintro ⟨k, hk, hemp⟩
        exact ⟨k + 1, by omega, by rw [applyTicks_succ_outer]; exact hemp⟩
      · rintro ⟨k, hk, hemp⟩
        cases k with
        | zero => exact absurd hemp (by simp [applyTicks])
        | succ k' =>
          rw [applyTicks_succ_outer] at hemp
          exact ⟨k', by omega, hemp⟩

/-- C2, amended: each 5-second monitoring tick scans the active handles in
registration order and reaps at most one handle — the first whose inspection
errors or reports exited (the inner loop breaks after a removal); a tick with
no reapable handle leaves the set unchanged; when every active handle is dead
the set therefore converges to the runtime view within as many ticks as there
are handles (not within one tick); and the wait returns exactly when the
active set becomes empty. -/
theorem C2_wait_loop_reaping (insp : String → Option String)
    (inspT : Nat → String → Option String) :
    (∀ (c : RunnerContainer) (cs : List RunnerContainer), reaped insp c →
      waitTick insp (c :: cs) = cs) ∧
    (∀ cs : List RunnerContainer, (∃ c ∈ cs, reaped insp c) →
      (waitTick insp cs).length + 1 = cs.length) ∧
    (∀ cs : List RunnerContainer, (∀ c ∈ cs, ¬ reaped insp c) →
      waitTick insp cs = cs) ∧
    (∀ (cs : List RunnerContainer) (t : Nat), (∀ c ∈ cs, reaped insp c) →
      applyTicks (fun _ => insp) t cs.length cs = []) ∧
    (∀ (fuel t : Nat) (cs : List RunnerContainer),
      waitLoop inspT fuel t cs = true ↔ ∃ k ≤ fuel, applyTicks inspT t k cs = []) :=
  ⟨fun c cs h => waitTick_head_reaped insp c cs h,
   waitTick_length insp,
   waitTick_none_reaped insp,
   applyTicks_all_dead insp,
   waitLoop_iff_empties inspT⟩

/-- C2 witness: with two exited containers a single tick reaps exactly one of
them, two ticks empty the set, and the wait loop returns within fuel 2. -/
theorem C2_wait_loop_reaping_witness :
    waitTick (fun _ => some "exited")
      [⟨"host1_1", "id1", "running"⟩, ⟨"host1_2", "id2", "running"⟩] =
      [⟨"host1_2", "id2", "running"⟩] ∧
    applyTicks (fun _ _ => some "exited") 0 2
      [⟨"host1_1", "id1", "running"⟩, ⟨"host1_2", "id2", "running"⟩] = [] ∧
    waitLoop (fun _ _ => some "exited") 2 0
      [⟨"host1_1", "id1", "running"⟩, ⟨"host1_2", "id2", "running"⟩] = true := by
  have h := C2_wait_loop_reaping (fun _ => some "exited") (fun _ _ => some "exited")
  refine ⟨?_, ?_, ?_⟩
  · exact h.1 ⟨"host1_1", "id1", "running"⟩ [⟨"host1_2", "id2", "running"⟩]
      (by right; rfl)
  · exact h.2.2.2.1 [⟨"host1_1", "id1", "running"⟩, ⟨"host1_2", "id2", "running"⟩] 0
      (by intro c _; right; rfl)
  · rw [(h.2.2.2.2 2 0 _)]
    refine ⟨2, Nat.le_refl 2, ?_⟩
    exact h.2.2.2.1 [⟨"host1_1", "id1", "running"⟩, ⟨"host1_2", "id2", "running"⟩] 0
      (by intro c _; right; rfl)

/-- C2 counterexample: two active handles, both already exited; after one full
monitoring tick the active set still holds host1_2 — the set has not
converged within one tick, refuting the claim that every reapable handle is
reaped on each tick. -/
theorem C2_wait_loop_counterexample :
    waitTick (fun _ => some "exited")
      [⟨"host1_1", "id1", "running"⟩, ⟨"host1_2", "id2", "running"⟩] =
      [⟨"host1_2", "id2", "running"⟩] ∧
    waitTick (fun _ => some "exited")
      [⟨"host1_1", "id1", "running"⟩, ⟨"host1_2", "id2", "running"⟩] ≠ [] := by
  decide

/-! ### Fleet controller: stopping runners (controller.go, shutdownRunners) -/

/-- Runtime operations issued while stopping one container. -/
inductive StopAction where
  | killC (id : String)
  | inspectC (id : String)
  | removeC (id : String)
deriving DecidableEq

/-- The kill-wait loop of shutdownRunners (controller.go lines 400 to 417):
every second the container is inspected; an inspection error breaks out with
no removal (the container is assumed already terminated); status exited
removes the container from Docker and breaks; any other status keeps polling.
The trace lists successive inspection results (none is an error); the Bool
records whether the loop exited within the supplied trace. -/
def waitKilled (id : String) : List (Option String) → List StopAction × Bool
  | [] => ([], false)
  | none :: _ => ([StopAction.inspectC id], true)
  | some st :: rest =>
    if st = "exited" then ([StopAction.inspectC id, StopAction.removeC id], true)
    else
      let r := waitKilled id rest
      (StopAction.inspectC id :: r.1, r.2)

/-- Per-container handling in shutdownRunners (controller.go lines 376 to
417): a container not in the running state is removed immediately with no
kill; a running one gets exactly one KillContainer call; a kill error is
logged and the controller moves to the next container; otherwise the
kill-wait loop runs. -/
def shutdownOne (id : String) (status : String) (killOk : Bool)
    (inspections : List (Option String)) : List StopAction × Bool :=
  if status ≠ "running" then ([StopAction.removeC id], true)
  else if killOk then
    let r := waitKilled id inspections
    (StopAction.killC id :: r.1, r.2)
  else ([StopAction.killC id], true)

theorem waitKilled_no_kill (id : String) :
    ∀ trace, (waitKilled id trace).1.count (StopAction.killC id) = 0 := by
  intro trace
  induction trace with
  | nil => rfl
  | cons r rest ih =>
    cases r with
    | none => simp [waitKilled, List.count_cons]
    | some st =>
      by_cases he : st = "exited"
      · simp [waitKilled, he, List.count_cons]
      · simp only [waitKilled, if_neg he]
        rw [List.count_cons]
        simp [ih]

theorem waitKilled_through (id : String) :
    ∀ (pre : List (Option String)) (last : Option String) (rest : List (Option String)),
      (∀ r ∈ pre, ∃ s, r = some s ∧ s ≠ "exited") →
      waitKilled id (pre ++ last :: rest) =
        ((List.replicate pre.length (StopAction.inspectC id)) ++
          (waitKilled id (last :: rest)).1, (waitKilled id (last :: rest)).2) := by
  intro pre
  induction pre with
  | nil => intro last rest _; simp
  | cons r pre' ih =>
    intro last rest h
    obtain ⟨s, rfl, hs⟩ := h r (List.mem_cons_self _ _)
    have hrec := ih last rest (fun r hr => h r (List.mem_cons_of_mem _ hr))
    simp only [List.cons_append, waitKilled, if_neg hs]
    simp only [List.append_eq]
    rw [hrec]
    simp [List.replicate_succ]

/-- C7: for a running container processed by Stop with a delivered kill,
exactly one kill signal is issued; the runtime object is removed only after an
inspection reports exited (the removal is the last action, after the polling
inspections); and if an inspection errors before exited is ever observed, no
removal is attempted. A failed kill also issues exactly one kill and nothing
else. The pre trace is the inspections observed while the container is still
shutting down (non-exited statuses). -/
theorem C7_stop_kill_then_remove (id : String) (pre : List (Option String))
    (rest : List (Option String))
    (hpre : ∀ r ∈ pre, ∃ s, r = some s ∧ s ≠ "exited") :
    (∀ killOk inspections,
      (shutdownOne id "running" killOk inspections).1.count (StopAction.killC id) = 1) ∧
    shutdownOne id "running" true (pre ++ some "exited" :: rest) =
      (StopAction.killC id ::
        (List.replicate pre.length (StopAction.inspectC id) ++
          [StopAction.inspectC id, StopAction.removeC id]), true) ∧
    shutdownOne id "running" true (pre ++ none :: rest) =
      (StopAction.killC id ::
        (List.replicate pre.length (StopAction.inspectC id) ++
          [StopAction.inspectC id]), true) ∧
    StopAction.removeC id ∉ (shutdownOne id "running" true (pre ++ none :: rest)).1 ∧
    shutdownOne id "running" false (pre ++ none :: rest) =
      ([StopAction.killC id], true) := by
  have hex := waitKilled_through id pre (some "exited") rest hpre
  have herr := waitKilled_through id pre none rest hpre
  have hexit : waitKilled id (some "exited" :: rest) =
      ([StopAction.inspectC id, StopAction.removeC id], true) := by
    simp [waitKilled]
  have herrbase : waitKilled id ((none : Option String) :: rest) =
      ([StopAction.inspectC id], true) := by
    simp [waitKilled]
  refine ⟨?_, ?_, ?_, ?_, ?_⟩
  · intro killOk inspections
    cases killOk with
    | true => simp [shutdownOne, List.count_cons, waitKilled_no_kill]
    | false => simp [shutdownOne, List.count_cons]
  · simp [shutdownOne, hex, hexit]
  · simp [shutdownOne, herr, herrbase]
  · have hred : (shutdownOne id "running" true (pre ++ none :: rest)).1 =
        StopAction.killC id ::
          (List.replicate pre.length (StopAction.inspectC id) ++ [StopAction.inspectC id]) := by
      simp [shutdownOne, herr, herrbase]
    rw [hred]
    intro hmem
    rcases List.mem_cons.mp hmem with h | h
    · exact absurd h (by simp)
    · rcases List.mem_append.mp h with h | h
      · exact absurd (List.eq_of_mem_replicate h) (by simp)
      · simp at h
  · simp [shutdownOne]

/-- C7 witness: container abc, still running for one poll, then exited: one
kill, two inspections, then the removal; and in the error-first trace no
removal happens. -/
theorem C7_stop_kill_then_remove_witness :
    shutdownOne "abc" "running" true [some "running", some "exited"] =
      (StopAction.killC "abc" ::
        (List.replicate 1 (StopAction.inspectC "abc") ++
          [StopAction.inspectC "abc", StopAction.removeC "abc"]), true) ∧
    StopAction.removeC "abc" ∉ (shutdownOne "abc" "running" true
      [some "running", none]).1 := by
  have h := C7_stop_kill_then_remove "abc" [some "running"] []
    (by intro r hr; refine ⟨"running", ?_, by decide⟩
        simpa using hr)
  exact ⟨h.2.1, h.2.2.2.1⟩

/-! ### Log multiplexer (controller.go, logFromContainer) -/

/-- Parsed structured log record (struct logInfo, controller.go lines 21 to
31), with Go string fields modelled as character lists. -/
structure LogInfo where
  Time : List Char
  Level : List Char
  Msg : List Char
  Source : List Char
  JobId : List Char
  RunID : List Char
  AgentID : List Char
  ProjectID : List Char
  ProjectOwnerID : List Char
deriving DecidableEq

/-- One conditional append step of the reformatter: the Go statement
if ls.X != "" then str1 = fmt.Sprintf("%s X=%s", str1, ls.X). -/
def appendOpt (s key val : List Char) : List Char :=
  if val ≠ [] then s ++ key ++ val else s

/-- Reformatting of a parsed record into a flat key=value line
(controller.go lines 497 to 516): time, level and msg are always emitted,
then each remaining field only when non-empty, in the source order AgentID,
JobId, RunID, ProjectID, ProjectOwnerID, Source. -/
def formatLogInfo (ls : LogInfo) : List Char :=
  appendOpt (appendOpt (appendOpt (appendOpt (appendOpt (appendOpt
    ("time=".data ++ ls.Time ++ " level=".data ++ ls.Level ++ " msg=".data ++ ls.Msg)
    " AgentID=".data ls.AgentID)
    " JobId=".data ls.JobId)
    " RunID=".data ls.RunID)
    " ProjectID=".data ls.ProjectID)
    " ProjectOwnerID=".data ls.ProjectOwnerID)
    " Source=".data ls.Source

/-- The key=value block contributed by one optional field: empty when the
field is empty, the key text followed by the value otherwise. -/
def optBlock (key val : List Char) : List Char :=
  if val ≠ [] then key ++ val else []

theorem appendOpt_eq (s key val : List Char) :
    appendOpt s key val = s ++ optBlock key val := by
  unfold appendOpt optBlock
  split_ifs with h
  · simp [List.append_assoc]
  · simp

/-- The optional tail of the flattened line, one block per non-empty field in
the source's emission order. -/
def optSuffix (ls : LogInfo) : List Char :=
  optBlock " AgentID=".data ls.AgentID ++
  (optBlock " JobId=".data ls.JobId ++
  (optBlock " RunID=".data ls.RunID ++
  (optBlock " ProjectID=".data ls.ProjectID ++
  (optBlock " ProjectOwnerID=".data ls.ProjectOwnerID ++
  optBlock " Source=".data ls.Source))))

theorem formatLogInfo_decomp (ls : LogInfo) :
    formatLogInfo ls =
      "time=".data ++ ls.Time ++ " level=".data ++ ls.Level ++ " msg=".data ++
        ls.Msg ++ optSuffix ls := by
  simp only [formatLogInfo, appendOpt_eq, optSuffix, List.append_assoc]

/-- The recognized optional fields, in the order the source emits them, paired
with their key text. -/
def orderedOptFields (ls : LogInfo) : List (List Char × List Char) :=
  [(" AgentID=".data, ls.AgentID), (" JobId=".data, ls.JobId),
   (" RunID=".data, ls.RunID), (" ProjectID=".data, ls.ProjectID),
   (" ProjectOwnerID=".data, ls.ProjectOwnerID), (" Source=".data, ls.Source)]

theorem optSuffix_as_filter (ls : LogInfo) :
    optSuffix ls =
      ((orderedOptFields ls).filter (fun p => p.2 ≠ [])).foldr
        (fun p acc => p.1 ++ p.2 ++ acc) [] := by
  unfold optSuffix orderedOptFields optBlock
  split_ifs <;> simp_all [List.filter_cons, List.append_assoc]

/-- strings.TrimSuffix(str, "\n") applied to the line delivered by
bufio ReadString (controller.go line 490). -/
def trimNL (s : List Char) : List Char :=
  match s.getLast? with
  | some c => if c = nlChar then s.dropLast else s
  | none => s

/-- Per-line handling of the log multiplexer (controller.go lines 483 to
517): trim one trailing newline; when the line starts with a left brace and
ends with a right brace, attempt a JSON parse (json.Unmarshal, modelled by
the parse oracle) and on success emit the reformatted record; any other line
passes through unchanged. -/
def processLine (parse : List Char → Option LogInfo) (s : List Char) : List Char :=
  let str := trimNL s
  if str.head? = some lbrace ∧ str.getLast? = some rbrace then
    match parse str with
    | some ls => formatLogInfo ls
    | none => str
  else str

/-- Modelled from the spec: the spec's stated field order for the flattened
line is jobId, runId, agentId, projectId, projectOwnerId, source; this
definition renders that order (with the source's key spellings) for
comparison with formatLogInfo, which follows the source. -/
def formatLogInfoSpecOrder (ls : LogInfo) : List Char :=
  let s0 := "time=".data ++ ls.Time ++ " level=".data ++ ls.Level ++ " msg=".data ++ ls.Msg
  let s1 := if ls.JobId ≠ [] then s0 ++ " JobId=".data ++ ls.JobId else s0
  let s2 := if ls.RunID ≠ [] then s1 ++ " RunID=".data ++ ls.RunID else s1
  let s3 := if ls.AgentID ≠ [] then s2 ++ " AgentID=".data ++ ls.AgentID else s2
  let s4 := if ls.ProjectID ≠ [] then s3 ++ " ProjectID=".data ++ ls.ProjectID else s3
  let s5 := if ls.ProjectOwnerID ≠ [] then s4 ++ " ProjectOwnerID=".data ++ ls.ProjectOwnerID else s4
  if ls.Source ≠ [] then s5 ++ " Source=".data ++ ls.Source else s5

/-- C6, amended: every input line that (after newline trimming) is
brace-delimited and parses as a structured record is emitted as a flat
key=value line in which time, level and msg are always present and each
remaining recognized field is appended only if non-empty — but in the
source's order AgentID, JobId, RunID, ProjectID, ProjectOwnerID, Source, not
the order the spec lists (jobId, runId, agentId, projectId, projectOwnerId,
source; refuted by the counterexample). -/
theorem C6_flat_line_fields (parse : List Char → Option LogInfo) :
    (∀ s ls, (trimNL s).head? = some lbrace → (trimNL s).getLast? = some rbrace →
      parse (trimNL s) = some ls → processLine parse s = formatLogInfo ls) ∧
    (∀ ls, formatLogInfo ls =
      "time=".data ++ ls.Time ++ " level=".data ++ ls.Level ++ " msg=".data ++
        ls.Msg ++
        ((orderedOptFields ls).filter (fun p => p.2 ≠ [])).foldr
          (fun p acc => p.1 ++ p.2 ++ acc) []) := by
  constructor
  · intro s ls h1 h2 h3
    unfold processLine
    rw [if_pos ⟨h1, h2⟩, h3]
  · intro ls
    rw [formatLogInfo_decomp, optSuffix_as_filter]

/-- C6 witness: a concrete brace-delimited line with every optional field
non-empty is reformatted with all nine fields present. -/
theorem C6_flat_line_fields_witness :
    processLine
      (fun _ => some ⟨"t".data, "l".data, "m".data, "so".data, "j".data,
        "r".data, "ag".data, "p".data, "po".data⟩)
      [lbrace, 'x', rbrace] =
      "time=t level=l msg=m AgentID=ag JobId=j RunID=r ProjectID=p ProjectOwnerID=po Source=so".data := by
  have h := (C6_flat_line_fields
    (fun _ => some ⟨"t".data, "l".data, "m".data, "so".data, "j".data,
      "r".data, "ag".data, "p".data, "po".data⟩)).1
    [lbrace, 'x', rbrace]
    ⟨"t".data, "l".data, "m".data, "so".data, "j".data,
      "r".data, "ag".data, "p".data, "po".data⟩
    (by decide) (by decide) rfl
  rw [h]
  decide

/-- C6 counterexample: with every optional field non-empty the source emits
AgentID before JobId and RunID; the spec's listed order (jobId, runId,
agentId, ...) produces a different line, so the claim's order is wrong. -/
theorem C6_flat_line_fields_counterexample :
    formatLogInfo ⟨"t".data, "l".data, "m".data, "so".data, "j".data,
        "r".data, "ag".data, "p".data, "po".data⟩ =
      "time=t level=l msg=m AgentID=ag JobId=j RunID=r ProjectID=p ProjectOwnerID=po Source=so".data ∧
    formatLogInfoSpecOrder ⟨"t".data, "l".data, "m".data, "so".data, "j".data,
        "r".data, "ag".data, "p".data, "po".data⟩ =
      "time=t level=l msg=m JobId=j RunID=r AgentID=ag ProjectID=p ProjectOwnerID=po Source=so".data ∧
    formatLogInfo ⟨"t".data, "l".data, "m".data, "so".data, "j".data,
        "r".data, "ag".data, "p".data, "po".data⟩ ≠
      formatLogInfoSpecOrder ⟨"t".data, "l".data, "m".data, "so".data, "j".data,
        "r".data, "ag".data, "p".data, "po".data⟩ := by
  refine ⟨by decide, by decide, by decide⟩

theorem head_trimNL_cons_cons (a b : Char) (r : List Char) :
    (trimNL (a :: b :: r)).head? = some a := by
  unfold trimNL
  cases h : (a :: b :: r).getLast? with
  | none => rfl
  | some c =>
    dsimp only
    by_cases hc : c = nlChar
    · rw [if_pos hc]; rfl
    · rw [if_neg hc]; rfl

/-- C9: (1) feeding an already-flattened line back through the formatter only
applies newline trimming (the line starts with letters, never a brace, so it
passes through); (2) when the flattened line has no trailing newline it is
left exactly unchanged; (3) a record whose optional fields are all empty
renders as exactly the three pairs time=, level=, msg= and nothing else. -/
theorem C9_reformat_idempotent (parse : List Char → Option LogInfo) :
    (∀ ls, processLine parse (formatLogInfo ls) = trimNL (formatLogInfo ls)) ∧
    (∀ ls, (formatLogInfo ls).getLast? ≠ some nlChar →
      processLine parse (formatLogInfo ls) = formatLogInfo ls) ∧
    (∀ t l m : List Char,
      formatLogInfo ⟨t, l, m, [], [], [], [], [], []⟩ =
        "time=".data ++ t ++ " level=".data ++ l ++ " msg=".data ++ m) := by
  have hshape : ∀ ls : LogInfo, ∃ r, formatLogInfo ls = 't' :: 'i' :: r := by
    intro ls
    refine ⟨'m' :: 'e' :: '=' :: (ls.Time ++ " level=".data ++ ls.Level ++
      " msg=".data ++ ls.Msg ++ optSuffix ls), ?_⟩
    · have hd := formatLogInfo_decomp ls
      rw [hd]
      rfl
  have hpass : ∀ ls, processLine parse (formatLogInfo ls) = trimNL (formatLogInfo ls) := by
    intro ls
    obtain ⟨r, hr⟩ := hshape ls
    unfold processLine
    rw [if_neg]
    intro hcond
    rw [hr] at hcond
    rw [head_trimNL_cons_cons] at hcond
    exact absurd hcond.1 (by decide)
  refine ⟨hpass, ?_, ?_⟩
  · intro ls hnl
    rw [hpass ls]
    unfold trimNL
    cases h : (formatLogInfo ls).getLast? with
    | none => rfl
    | some c =>
      have hc : c ≠ nlChar := by
        intro he; exact hnl (by rw [h, he])
      dsimp only
      rw [if_neg hc]
  · intro t l m
    have hd := formatLogInfo_decomp ⟨t, l, m, [], [], [], [], [], []⟩
    rw [hd]
    have hsuf : optSuffix ⟨t, l, m, [], [], [], [], [], []⟩ = [] := by
      unfold optSuffix
      simp [optBlock]
    rw [hsuf]
    simp

/-- C9 witness: a concrete flattened line (no trailing newline) is unchanged
by a second pass, and a record with only time, level, msg set renders as
exactly those three pairs. -/
theorem C9_reformat_idempotent_witness :
    processLine (fun _ => none)
      (formatLogInfo ⟨"t".data, "l".data, "m".data, [], [], [], [], [], []⟩) =
      formatLogInfo ⟨"t".data, "l".data, "m".data, [], [], [], [], [], []⟩ ∧
    formatLogInfo ⟨"t".data, "l".data, "m".data, [], [], [], [], [], []⟩ =
      "time=t level=l msg=m".data := by
  constructor
  · exact (C9_reformat_idempotent (fun _ => none)).2.1
      ⟨"t".data, "l".data, "m".data, [], [], [], [], [], []⟩ (by decide)
  · decide

/-! ### Remote Docker Daemon lease client (rdd.go) -/

/-- The recorded lease (struct rddDetails, rdd.go lines 49 to 52). -/
structure RddDetails where
  rddURI : String
  rddProvisionRequestID : String
deriving DecidableEq

/-- Daemon states reported by GetStatus that the loop distinguishes
(rdd.go lines 123 to 144): the explicit error state, the provisioned state,
and any other state (logged as progress; modelled as pending). -/
inductive DaemonState where
  | pending : DaemonState
  | provisioned : DaemonState
  | daemonError : DaemonState
deriving DecidableEq

/-- A GetStatus response: the reported state and URL. -/
structure StatusResponse where
  state : DaemonState
  url : String
deriving DecidableEq

/-- One iteration of the select in the poll loop (rdd.go lines 107 to 147):
either the timeout channel fires, or the ticker fires and one GetStatus RPC
is made (none models an RPC error, which is logged and retried). -/
inductive PollEvent where
  | timeoutFires : PollEvent
  | tick (resp : Option StatusResponse) : PollEvent
deriving DecidableEq

/-- RPCs issued against the RDD service, with their request payloads. -/
inductive RpcCall where
  | provisionCall (runID : String)
  | getStatusCall (id : String)
  | deprovisionCall (id : String)
deriving DecidableEq

/-- The error classes Provision can return. -/
inductive ProvisionError where
  | provisionRPC : ProvisionError
  | emptyResponseID : ProvisionError
  | timedOut : ProvisionError
  | statusError : ProvisionError
  | invalidURL : ProvisionError
  | verifyFailed : ProvisionError
deriving DecidableEq

/-- Outcome of one Provision execution: the returned value or error, the
final rddDetails field (nil on entry, as left by New), and the RPCs issued. -/
structure ProvisionOutcome where
  result : Except ProvisionError String
  details : Option RddDetails
  calls : List RpcCall

/-- The poll loop of Provision (rdd.go lines 107 to 147). On a timeout the
loop aborts with a timeout error. On a tick one GetStatus RPC is issued: an
RPC error logs and continues; the error state aborts; the provisioned state
with an empty URL aborts with no details recorded; the provisioned state with
a URL records rddDetails (both fields non-empty) and runs verify (modelled by
the verifyOk oracle), returning the URI on success; any other state logs and
continues. The event list is the sequence of select outcomes; none is
returned when the trace ends before the loop does. -/
def provisionLoop (id : String) (verifyOk : Bool) :
    List PollEvent → Option ProvisionOutcome
  | [] => none
  | PollEvent.timeoutFires :: _ =>
    some ⟨Except.error ProvisionError.timedOut, none, []⟩
  | PollEvent.tick none :: rest =>
    (provisionLoop id verifyOk rest).map
      (fun o => ⟨o.result, o.details, RpcCall.getStatusCall id :: o.calls⟩)
  | PollEvent.tick (some r) :: rest =>
    if r.state = DaemonState.daemonError then
      some ⟨Except.error ProvisionError.statusError, none, [RpcCall.getStatusCall id]⟩
    else if r.state = DaemonState.provisioned then
      if r.url = "" then
        some ⟨Except.error ProvisionError.invalidURL, none, [RpcCall.getStatusCall id]⟩
      else
        some ⟨(if verifyOk then Except.ok r.url else Except.error ProvisionError.verifyFailed),
          some ⟨r.url, id⟩, [RpcCall.getStatusCall id]⟩
    else
      (provisionLoop id verifyOk rest).map
        (fun o => ⟨o.result, o.details, RpcCall.getStatusCall id :: o.calls⟩)

/-- Provision (rdd.go lines 83 to 148): one Provision RPC is issued (provResp
models its result: none is an RPC error, some id the returned response ID);
an error or an empty response ID fails immediately with no polling and no
details; otherwise the poll loop runs. -/
def Provision (runID : String) (provResp : Option String) (verifyOk : Bool)
    (events : List PollEvent) : Option ProvisionOutcome :=
  match provResp with
  | none =>
    some ⟨Except.error ProvisionError.provisionRPC, none, [RpcCall.provisionCall runID]⟩
  | some id =>
    if id = "" then
      some ⟨Except.error ProvisionError.emptyResponseID, none, [RpcCall.provisionCall runID]⟩
    else
      (provisionLoop id verifyOk events).map
        (fun o => ⟨o.result, o.details, RpcCall.provisionCall runID :: o.calls⟩)

/-- Deprovision (rdd.go lines 151 to 158): one Deprovision RPC keyed by
rdd.rddDetails.rddProvisionRequestID; an RPC failure is logged and swallowed
(the rpcOk oracle does not change the outcome, and no error is returned).
When rddDetails is nil the field access dereferences a nil pointer: modelled
as none (a fault), with no RPC issued. -/
def Deprovision (details : Option RddDetails) (rpcOk : Bool) :
    Option (List RpcCall) :=
  match details with
  | none => none
  | some d => some [RpcCall.deprovisionCall d.rddProvisionRequestID]

/-- Poll events that do not terminate the loop: a GetStatus RPC error or a
response in a non-terminal state. -/
def nonTerminal (e : PollEvent) : Prop :=
  e = PollEvent.tick none ∨ ∃ u, e = PollEvent.tick (some ⟨DaemonState.pending, u⟩)

theorem provisionLoop_details_inv (id : String) (verifyOk : Bool) (hid : id ≠ "") :
    ∀ (events : List PollEvent) (o : ProvisionOutcome),
      provisionLoop id verifyOk events = some o →
      o.details = none ∨ ∃ d, o.details = some d ∧ d.rddURI ≠ "" ∧
        d.rddProvisionRequestID ≠ "" := by
  intro events
  induction events with
  | nil => intro o ho; exact absurd ho (by simp [provisionLoop])
  | cons e rest ih =>
    intro o ho
    cases e with
    | timeoutFires =>
      simp only [provisionLoop, Option.some.injEq] at ho
      rw [← ho]
      left; rfl
    | tick resp =>
      cases resp with
      | none =>
        simp only [provisionLoop, Option.map_eq_some'] at ho
        obtain ⟨o', ho', rfl⟩ := ho
        exact ih o' ho'
      | some r =>
        by_cases herr : r.state = DaemonState.daemonError
        · simp only [provisionLoop, if_pos herr, Option.some.injEq] at ho
          rw [← ho]; left; rfl
        · by_cases hprov : r.state = DaemonState.provisioned
          · by_cases hurl : r.url = ""
            · simp only [provisionLoop, if_neg herr, if_pos hprov, if_pos hurl,
                Option.some.injEq] at ho
              rw [← ho]; left; rfl
            · simp only [provisionLoop, if_neg herr, if_pos hprov, if_neg hurl,
                Option.some.injEq] at ho
              rw [← ho]
              right; exact ⟨⟨r.url, id⟩, rfl, hurl, hid⟩
          · simp only [provisionLoop, if_neg herr, if_neg hprov,
              Option.map_eq_some'] at ho
            obtain ⟨o', ho', rfl⟩ := ho
            exact ih o' ho'

theorem provisionLoop_through (id : String) (verifyOk : Bool) :
    ∀ (pre : List PollEvent) (e : PollEvent) (rest : List PollEvent),
      (∀ x ∈ pre, nonTerminal x) →
      provisionLoop id verifyOk (pre ++ e :: rest) =
        (provisionLoop id verifyOk (e :: rest)).map
          (fun o => ⟨o.result, o.details,
            List.replicate pre.length (RpcCall.getStatusCall id) ++ o.calls⟩) := by
  intro pre
  induction pre with
  | nil =>
    intro e rest _
    cases h : provisionLoop id verifyOk (e :: rest) with
    | none => simp [h]
    | some o => simp [h]
  | cons x pre' ih =>
    intro e rest h
    have hx := h x (List.mem_cons_self _ _)
    have hrec := ih e rest (fun y hy => h y (List.mem_cons_of_mem _ hy))
    rcases hx with hx | ⟨u, hx⟩ <;> subst hx
    · simp only [List.cons_append, provisionLoop]
      simp only [List.append_eq]
      rw [hrec]
      cases hbase : provisionLoop id verifyOk (e :: rest) with
      | none => simp
      | some o => simp [List.replicate_succ]
    · simp only [List.cons_append, provisionLoop]
      rw [if_neg (by decide), if_neg (by decide)]
      simp only [List.append_eq]
      rw [hrec]
      cases hbase : provisionLoop id verifyOk (e :: rest) with
      | none => simp
      | some o => simp [List.replicate_succ]

/-- C4: the recorded LeaseDetails is never partially set — for every
execution of Provision the final rddDetails is either absent or has both the
URI and the provisioning request ID non-empty; and in particular, when the
first terminal poll response is provisioned with an empty URL, Provision
returns the invalid-URL error and no details are recorded. -/
theorem C4_lease_details_all_or_nothing (runID : String) :
    (∀ (provResp : Option String) (verifyOk : Bool) (events : List PollEvent)
      (o : ProvisionOutcome), Provision runID provResp verifyOk events = some o →
      o.details = none ∨ ∃ d, o.details = some d ∧ d.rddURI ≠ "" ∧
        d.rddProvisionRequestID ≠ "") ∧
    (∀ (id : String) (verifyOk : Bool) (pre rest : List PollEvent),
      id ≠ "" → (∀ x ∈ pre, nonTerminal x) →
      Provision runID (some id) verifyOk
        (pre ++ PollEvent.tick (some ⟨DaemonState.provisioned, ""⟩) :: rest) =
        some ⟨Except.error ProvisionError.invalidURL, none,
          RpcCall.provisionCall runID ::
            (List.replicate pre.length (RpcCall.getStatusCall id) ++
              [RpcCall.getStatusCall id])⟩) := by
  constructor
  · intro provResp verifyOk events o ho
    cases provResp with
    | none =>
      simp only [Provision, Option.some.injEq] at ho
      rw [← ho]; left; rfl
    | some id =>
      by_cases hid : id = ""
      · simp only [Provision, if_pos hid, Option.some.injEq] at ho
        rw [← ho]; left; rfl
      · simp only [Provision, if_neg hid, Option.map_eq_some'] at ho
        obtain ⟨o', ho', rfl⟩ := ho
        exact provisionLoop_details_inv id verifyOk hid events o' ho'
  · intro id verifyOk pre rest hid hpre
    have hthrough := provisionLoop_through id verifyOk pre
      (PollEvent.tick (some ⟨DaemonState.provisioned, ""⟩)) rest hpre
    have hbase : provisionLoop id verifyOk
        (PollEvent.tick (some ⟨DaemonState.provisioned, ""⟩) :: rest) =
        some ⟨Except.error ProvisionError.invalidURL, none,
          [RpcCall.getStatusCall id]⟩ := by
      simp [provisionLoop]
    simp only [Provision, if_neg hid, hthrough, hbase, Option.map_some']

/-- C4 witness: response ID r1, two pending polls, then provisioned with an
empty URL — Provision errors and records no details. -/
theorem C4_lease_details_all_or_nothing_witness :
    Provision "run1" (some "r1") true
      [PollEvent.tick (some ⟨DaemonState.pending, ""⟩),
       PollEvent.tick none,
       PollEvent.tick (some ⟨DaemonState.provisioned, ""⟩)] =
      some ⟨Except.error ProvisionError.invalidURL, none,
        RpcCall.provisionCall "run1" ::
          (List.replicate 2 (RpcCall.getStatusCall "r1") ++
            [RpcCall.getStatusCall "r1"])⟩ := by
  have h := (C4_lease_details_all_or_nothing "run1").2 "r1" true
    [PollEvent.tick (some ⟨DaemonState.pending, ""⟩), PollEvent.tick none] []
    (by decide)
    (by intro x hx
        rcases List.mem_cons.mp hx with rfl | hx
        · exact Or.inr ⟨"", rfl⟩
        · rcases List.mem_cons.mp hx with rfl | hx
          · exact Or.inl rfl
          · exact absurd hx (List.not_mem_nil x))
  simpa using h

/-- C5: when the timeout fires before any terminal poll response, Provision
returns the timeout error exactly once: the single returned outcome carries
the timedOut error, the GetStatus calls are exactly those of the ticks before
the timeout (the events after the timeout are never consumed, so polling
stops), exactly one Provision RPC and no Deprovision RPC is ever issued, and
no details are recorded. -/
theorem C5_timeout_fires_once (runID id : String) (verifyOk : Bool)
    (pre rest : List PollEvent) (hid : id ≠ "")
    (hpre : ∀ x ∈ pre, nonTerminal x) :
    Provision runID (some id) verifyOk (pre ++ PollEvent.timeoutFires :: rest) =
      some ⟨Except.error ProvisionError.timedOut, none,
        RpcCall.provisionCall runID ::
          List.replicate pre.length (RpcCall.getStatusCall id)⟩ ∧
    (∀ o : ProvisionOutcome,
      Provision runID (some id) verifyOk (pre ++ PollEvent.timeoutFires :: rest) =
        some o →
      (RpcCall.deprovisionCall id ∉ o.calls ∧
        o.calls.count (RpcCall.provisionCall runID) = 1)) := by
  have hthrough := provisionLoop_through id verifyOk pre PollEvent.timeoutFires rest hpre
  have hbase : provisionLoop id verifyOk (PollEvent.timeoutFires :: rest) =
      some ⟨Except.error ProvisionError.timedOut, none, []⟩ := by
    simp [provisionLoop]
  have hmain : Provision runID (some id) verifyOk
      (pre ++ PollEvent.timeoutFires :: rest) =
      some ⟨Except.error ProvisionError.timedOut, none,
        RpcCall.provisionCall runID ::
          List.replicate pre.length (RpcCall.getStatusCall id)⟩ := by
    simp only [Provision, if_neg hid, hthrough, hbase, Option.map_some', List.append_nil]
  refine ⟨hmain, ?_⟩
  intro o ho
  rw [hmain] at ho
  injection ho with ho
  rw [← ho]
  constructor
  · intro hmem
    rcases List.mem_cons.mp hmem with h | h
    · exact absurd h (by simp)
    · exact absurd (List.eq_of_mem_replicate h) (by simp)
  · rw [List.count_cons]
    have hrep : (List.replicate pre.length (RpcCall.getStatusCall id)).count
        (RpcCall.provisionCall runID) = 0 := by
      rw [List.count_replicate]
      simp
    simp [hrep]

/-- C5 witness: one pending poll, then the timeout fires with further events
pending behind it: a single timedOut outcome, one GetStatus call, one
Provision call, no Deprovision. -/
theorem C5_timeout_fires_once_witness :
    Provision "run1" (some "r2") true
      [PollEvent.tick (some ⟨DaemonState.pending, ""⟩), PollEvent.timeoutFires,
       PollEvent.timeoutFires] =
      some ⟨Except.error ProvisionError.timedOut, none,
        RpcCall.provisionCall "run1" ::
          List.replicate 1 (RpcCall.getStatusCall "r2")⟩ := by
  have h := C5_timeout_fires_once "run1" "r2" true
    [PollEvent.tick (some ⟨DaemonState.pending, ""⟩)] [PollEvent.timeoutFires]
    (by decide)
    (by intro x hx
        rcases List.mem_cons.mp hx with rfl | hx
        · exact Or.inr ⟨"", rfl⟩
        · exact absurd hx (List.not_mem_nil x))
  simpa using h.1

/-- C8: with a recorded lease, Deprovision issues exactly one Deprovision RPC
keyed by the recorded provisioning request ID and swallows an RPC failure
(the outcome is identical whether the RPC succeeds or fails, and no error is
returned); without a prior successful Provision the nil rddDetails pointer is
dereferenced — a fault — so a non-nil LeaseDetails is a necessary
precondition for Deprovision to be safe. -/
theorem C8_deprovision_once_and_nil_fault :
    (∀ (d : RddDetails) (rpcOk : Bool),
      Deprovision (some d) rpcOk = some [RpcCall.deprovisionCall d.rddProvisionRequestID] ∧
      Deprovision (some d) true = Deprovision (some d) false) ∧
    (∀ rpcOk : Bool, Deprovision none rpcOk = none) :=
  ⟨fun _ _ => ⟨rfl, rfl⟩, fun _ => rfl⟩

end Wercker
